import Mathlib

/-!
Verification of the preprocessing pipeline in `data_pre_processing.ipynb`
(repository aai520-f24-group1-chatbox-final).

The notebook is a linear pipeline over conversational data:
cleaning (`clean_text`), whitespace tokenization (`tokenize`),
adjacent-pair extraction, padding/truncation (`pad_sequence`),
a train/validation split (`sklearn.train_test_split`, external library)
and JSON serialization (`json.dump`, standard library).

Strings are embedded as `List Char`.  Python's `str.lower` is modelled
by ASCII lowercasing (`Char.toLower`); the cleaning regex removes every
non-ASCII character anyway, so the properties stated below do not depend
on lowercase mappings outside ASCII.  Python's `\s` character class is
modelled by its ASCII part `[ \t\n\r\v\f]`; the same class is used both
in the embedded regex and in the stated output patterns, so the
properties do not depend on the Unicode extension of `\s` either.
-/

abbrev Str := List Char

/-- The ASCII part of Python's regex `\s` class (and the whitespace test
of `str.split()`): space, tab, newline, carriage return, vertical tab,
form feed. -/
def pyIsSpace (c : Char) : Bool :=
  c = ' ' || c = '\t' || c = '\n' || c = '\r' || c = '\x0b' || c = '\x0c'

/-- A character kept by the cleaning regex (`re.sub` deletes every match
of `[^a-zA-Z0-9\s]`): ASCII letters (either case), ASCII digits, or
whitespace. -/
def keptByRegex (c : Char) : Bool :=
  (('a' ≤ c && c ≤ 'z') || ('A' ≤ c && c ≤ 'Z') || ('0' ≤ c && c ≤ '9'))
    || pyIsSpace c

/-- `clean_text` from the notebook:
`text = text.lower()` then `text = re.sub(r"[^a-zA-Z0-9\s]", "", text)`.
Lowercase each character, then delete every character the regex class
`[^a-zA-Z0-9\s]` matches. -/
def clean_text (text : Str) : Str :=
  (text.map Char.toLower).filter keptByRegex

/-- Auxiliary for `tokenize`: scan the characters, accumulating the
current (reversed) token, emitting it at each whitespace character and
discarding empty fields — the semantics of Python's `str.split()` with
no separator argument. -/
def tokenizeAux : Str → Str → List Str
  | [], cur => if cur = [] then [] else [cur.reverse]
  | c :: rest, cur =>
    if pyIsSpace c then
      if cur = [] then tokenizeAux rest []
      else cur.reverse :: tokenizeAux rest []
    else tokenizeAux rest (c :: cur)

/-- `tokenize` from the notebook: `return text.split()` — split on runs
of whitespace, discarding empty tokens. -/
def tokenize (text : Str) : List Str :=
  tokenizeAux text []

/-- The sentinel token `<PAD>`. -/
def PAD : Str := '<' :: 'P' :: 'A' :: 'D' :: '>' :: []

/-- `pad_sequence` from the notebook:
`sequence[:max_length]` followed by `max_length - len(sequence)` copies of
the sentinel.
(Python's list repetition with a negative count yields `[]`, exactly as
truncated `Nat` subtraction does here.) -/
def pad_sequence (sequence : List Str) (max_length : Nat) : List Str :=
  sequence.take max_length
    ++ List.replicate (max_length - sequence.length) PAD

/-- Reference description of splitting: cut the string at every
whitespace character, keeping empty fields (so a run of `k` whitespace
characters produces `k - 1` empty fields between its two neighbours,
plus empty fields at the ends).  `tokenize` is this followed by
discarding the empty fields. -/
def splitKeepEmpty : Str → List Str
  | [] => [[]]
  | c :: rest =>
    if pyIsSpace c then [] :: splitKeepEmpty rest
    else
      match splitKeepEmpty rest with
      | [] => [[c]]
      | f :: fs => (c :: f) :: fs

/-- An utterance: its text (mutated in place by the cleaning stage) and
the token list assigned in place by the tokenization stage
(`utt.tokens = tokenize(utt.text)`). -/
structure Utterance where
  text : Str
  tokens : List Str
  deriving DecidableEq, Repr

instance : Inhabited Utterance := ⟨⟨[], []⟩⟩

/-- A conversation: an identifier and its ordered utterances. -/
structure Conversation where
  id : Str
  utterances : List Utterance
  deriving DecidableEq, Repr

/-- Cleaning stage: `utt.text = clean_text(utt.text)` for every
utterance of every conversation. -/
def cleanUtt (u : Utterance) : Utterance :=
  { u with text := clean_text u.text }

def cleanConvo (c : Conversation) : Conversation :=
  { c with utterances := c.utterances.map cleanUtt }

def cleanCorpus (corpus : List Conversation) : List Conversation :=
  corpus.map cleanConvo

/-- Tokenization stage: `utt.tokens = tokenize(utt.text)` for every
utterance of every conversation. -/
def tokenizeUtt (u : Utterance) : Utterance :=
  { u with tokens := tokenize u.text }

def tokenizeConvo (c : Conversation) : Conversation :=
  { c with utterances := c.utterances.map tokenizeUtt }

def tokenizeCorpus (corpus : List Conversation) : List Conversation :=
  corpus.map tokenizeConvo

/-- The inner Conversation Pairing loop:
`for i in range(len(utterances) - 1): pairs.append((utterances[i].text, utterances[i+1].text))`. -/
def convoPairs (us : List Utterance) : List (Str × Str) :=
  (List.range (us.length - 1)).map
    (fun i => ((us.getD i default).text, (us.getD (i + 1) default).text))

/-- The outer Conversation Pairing loop: pairs of all conversations,
concatenated in corpus iteration order. -/
def extractPairs (corpus : List Conversation) : List (Str × Str) :=
  corpus.flatMap (fun convo => convoPairs convo.utterances)

/-- The Padding and Truncation loop:
`pairs[i] = (pad_sequence(tokenize(input_text), max_length), pad_sequence(tokenize(response_text), max_length))` —
each side of a pair is re-tokenized from its text and padded. -/
def padPairs (ps : List (Str × Str)) (max_length : Nat) :
    List (List Str × List Str) :=
  ps.map (fun p =>
    (pad_sequence (tokenize p.1) max_length,
     pad_sequence (tokenize p.2) max_length))

/-- The reference pipeline up to the padded pair list: clean the corpus
in place, tokenize it in place (the assigned tokens are not consumed by
the later stages), extract adjacent text pairs, re-tokenize and pad. -/
def preprocess (corpus : List Conversation) (max_length : Nat) :
    List (List Str × List Str) :=
  padPairs (extractPairs (tokenizeCorpus (cleanCorpus corpus))) max_length

/-- Modelled from the spec (§4.3, §9): the variant pipeline that, at
padding time, reuses the tokens assigned to each Utterance by the
tokenization stage instead of re-tokenizing the pair texts. -/
def convoPairsTokens (us : List Utterance) : List (List Str × List Str) :=
  (List.range (us.length - 1)).map
    (fun i => ((us.getD i default).tokens, (us.getD (i + 1) default).tokens))

/-- Modelled from the spec (§4.3, §9): token pairs of all conversations,
concatenated in corpus iteration order. -/
def extractPairsTokens (corpus : List Conversation) :
    List (List Str × List Str) :=
  corpus.flatMap (fun convo => convoPairsTokens convo.utterances)

/-- Modelled from the spec (§4.3, §9): the cached-token pipeline — pad
the tokens stored on the utterances by the tokenization stage. -/
def preprocessCached (corpus : List Conversation) (max_length : Nat) :
    List (List Str × List Str) :=
  (extractPairsTokens (tokenizeCorpus (cleanCorpus corpus))).map
    (fun p => (pad_sequence p.1 max_length, pad_sequence p.2 max_length))

/-- Modelled from the spec (§4.5): `sklearn.model_selection.train_test_split`
is an external library call, not part of this repository's sources; the
shuffle is modelled by an explicit index permutation `perm`. -/
def shuffleBy (perm : List Nat) (l : List (List Str × List Str)) :
    List (List Str × List Str) :=
  perm.map (fun i => l.getD i ([], []))

/-- Modelled from the spec (§4.5): `train_test_split(pairs, test_size=0.2)`
— a uniform shuffle-then-cut returning `(train_pairs, val_pairs)`; the
validation cut is `ceil(0.2 * N)` elements (sklearn's rounding for the
test side), here `(N + 4) / 5` in truncated `Nat` division. -/
def train_test_split (l : List (List Str × List Str)) (perm : List Nat) :
    List (List Str × List Str) × List (List Str × List Str) :=
  let n_test := (l.length + 4) / 5
  let shuffled := shuffleBy perm l
  (shuffled.drop n_test, shuffled.take n_test)

/-- A JSON document: only the constructors `json.dump` produces for the
padded pair list (strings and arrays) are needed. -/
inductive Json where
  | str : Str → Json
  | arr : List Json → Json

/-- Modelled from the spec (§4.6): `json.dump(pairs, f)` writes the pair
list as a JSON array of 2-element arrays of token arrays. -/
def serialize (pairs : List (List Str × List Str)) : Json :=
  Json.arr (pairs.map (fun p =>
    Json.arr [Json.arr (p.1.map Json.str), Json.arr (p.2.map Json.str)]))

/-- Modelled from the spec (§4.6): reading the file back — a JSON string
node is a token. -/
def decodeStr : Json → Option Str
  | Json.str s => some s
  | Json.arr _ => none

/-- Modelled from the spec (§4.6): decode a list of JSON string nodes,
failing on any other shape. -/
def decodeStrList : List Json → Option (List Str)
  | [] => some []
  | j :: js => do
      let x ← decodeStr j
      let xs ← decodeStrList js
      pure (x :: xs)

/-- Modelled from the spec (§4.6): a JSON array of strings is a token
sequence. -/
def decodeSeq : Json → Option (List Str)
  | Json.arr es => decodeStrList es
  | Json.str _ => none

/-- Modelled from the spec (§4.6): a 2-element JSON array of token
sequences is a pair. -/
def decodePair : Json → Option (List Str × List Str)
  | Json.arr (a :: b :: []) => do
      let x ← decodeSeq a
      let y ← decodeSeq b
      pure (x, y)
  | _ => none

/-- Modelled from the spec (§4.6): decode a list of pair nodes. -/
def decodePairList : List Json → Option (List (List Str × List Str))
  | [] => some []
  | j :: js => do
      let p ← decodePair j
      let ps ← decodePairList js
      pure (p :: ps)

/-- Modelled from the spec (§4.6): the whole document is the list of
pairs. -/
def deserialize : Json → Option (List (List Str × List Str))
  | Json.arr es => decodePairList es
  | Json.str _ => none

/-- The outcome of running the Save Preprocessed Data cell: a JSON
document written to the output file, or a Python error raised before any
write happens. -/
inductive SaveResult where
  | written : Json → SaveResult
  | syntaxError : SaveResult

/-- The Save Preprocessed Data cell exactly as frozen in src/: its
with-open line begins with a stray `]` (`]with open(...) as f:`), which
is a SyntaxError (unmatched bracket).  Python rejects the whole cell
before executing any statement of it, so no document is ever written —
for every corpus, `max_length` and split permutation. -/
def saveCellFrozen (corpus : List Conversation) (max_length : Nat)
    (perm : List Nat) : SaveResult :=
  SaveResult.syntaxError

/-- Modelled from the spec (§4.6) and the cell's stored success output
(which predates the stray bracket): the write the cell is meant to
perform — the split is computed
(`train_pairs, val_pairs = train_test_split(pairs, test_size=0.2)`) but
`json.dump(pairs, f)` then writes the full padded pair list `pairs`
itself, not the split halves. -/
def saveCellIntended (corpus : List Conversation) (max_length : Nat)
    (perm : List Nat) : SaveResult :=
  let pairs := preprocess corpus max_length
  let _split := train_test_split pairs perm
  SaveResult.written (serialize pairs)

/-- A Python value bound to an utterance's text field: a string, or None
(the malformed/missing-text case of spec §7). -/
inductive PyTextValue where
  | str : Str → PyTextValue
  | none : PyTextValue
  deriving DecidableEq

/-- Python exception classes relevant here. -/
inductive PyError where
  | attributeError : PyError
  | invalidInput : PyError
  deriving DecidableEq

/-- The call `clean_text(utt.text)` under Python semantics when the text
may be None: the notebook performs no validation, so `text.lower()` on
None raises `AttributeError` from inside `clean_text` (before the regex
substitution is even reached). -/
def clean_text_py : PyTextValue → Except PyError Str
  | PyTextValue.str s => Except.ok (clean_text s)
  | PyTextValue.none => Except.error PyError.attributeError

/- ------------------------------------------------------------------ -/
/- Helper lemmas                                                      -/
/- ------------------------------------------------------------------ -/

theorem splitKeepEmpty_ne_nil (s : Str) : splitKeepEmpty s ≠ [] := by
  induction s with
  | nil => simp [splitKeepEmpty]
  | cons c rest ih =>
    simp only [splitKeepEmpty]
    split
    · simp
    · cases h : splitKeepEmpty rest <;> simp

theorem tokenizeAux_eq_filter (s : Str) :
    ∀ cur : Str,
      tokenizeAux s cur =
        (match splitKeepEmpty s with
         | [] => []
         | f :: fs => ((cur.reverse ++ f) :: fs).filter (fun t => t ≠ [])) := by
  induction s with
  | nil =>
    intro cur
    simp only [tokenizeAux, splitKeepEmpty]
    by_cases h : cur = []
    · subst h; simp
    · simp [h, List.filter_cons, List.reverse_eq_nil_iff]
  | cons c rest ih =>
    intro cur
    simp only [tokenizeAux, splitKeepEmpty]
    by_cases hsp : pyIsSpace c
    · simp only [hsp, if_true]
      by_cases hc : cur = []
      · subst hc
        rw [ih []]
        cases h : splitKeepEmpty rest with
        | nil => exact absurd h (splitKeepEmpty_ne_nil rest)
        | cons f fs => simp [List.filter_cons]
      · simp only [hc, if_false]
        rw [ih []]
        cases h : splitKeepEmpty rest with
        | nil => exact absurd h (splitKeepEmpty_ne_nil rest)
        | cons f fs =>
          simp [List.filter_cons, List.reverse_eq_nil_iff, hc]
    · simp only [hsp, if_false]
      rw [ih (c :: cur)]
      cases h : splitKeepEmpty rest with
      | nil => exact absurd h (splitKeepEmpty_ne_nil rest)
      | cons f fs => simp

theorem tokenize_eq_split_filter (s : Str) :
    tokenize s = (splitKeepEmpty s).filter (fun t => t ≠ []) := by
  rw [tokenize, tokenizeAux_eq_filter s []]
  cases h : splitKeepEmpty s with
  | nil => exact absurd h (splitKeepEmpty_ne_nil s)
  | cons f fs => simp

theorem convoPairs_length (us : List Utterance) :
    (convoPairs us).length = us.length - 1 := by
  simp [convoPairs]

theorem convoPairs_getD (us : List Utterance) (i : Nat)
    (h : i + 1 < us.length) :
    (convoPairs us).getD i ([], []) =
      ((us.getD i default).text, (us.getD (i + 1) default).text) := by
  have hi : i < us.length - 1 := by omega
  have hlen : i < (convoPairs us).length := by
    rw [convoPairs_length]; exact hi
  rw [List.getD_eq_getElem _ _ hlen]
  simp [convoPairs, hi]

theorem mem_extractPairs (corpus : List Conversation) (p : Str × Str)
    (hp : p ∈ extractPairs corpus) :
    ∃ c ∈ corpus, ∃ i, i + 1 < c.utterances.length ∧
      p = ((c.utterances.getD i default).text,
           (c.utterances.getD (i + 1) default).text) := by
  rw [extractPairs, List.mem_flatMap] at hp
  obtain ⟨c, hc, hpc⟩ := hp
  refine ⟨c, hc, ?_⟩
  rw [convoPairs, List.mem_map] at hpc
  obtain ⟨i, hi, hip⟩ := hpc
  rw [List.mem_range] at hi
  exact ⟨i, by omega, hip.symm⟩

theorem char_le_iff_toNat (a b : Char) : a ≤ b ↔ a.toNat ≤ b.toNat := Iff.rfl

theorem toNat_toLower (c : Char) :
    c.toLower.toNat =
      if 65 ≤ c.toNat ∧ c.toNat ≤ 90 then c.toNat + 32 else c.toNat := by
  rw [Char.toLower]
  split
  · next h =>
    have hv : (c.toNat + 32).isValidChar := by
      left
      omega
    rw [Char.ofNat, dif_pos hv]
    rfl
  · rfl

theorem toLower_not_ascii_upper (c : Char) :
    ¬('A' ≤ c.toLower ∧ c.toLower ≤ 'Z') := by
  rw [char_le_iff_toNat, char_le_iff_toNat]
  have h := toNat_toLower c
  rw [show ('A').toNat = 65 from rfl, show ('Z').toNat = 90 from rfl]
  split at h <;> omega

theorem keptByRegex_toLower (a : Char) :
    keptByRegex a.toLower =
      ((('a' ≤ a.toLower && a.toLower ≤ 'z')
          || ('0' ≤ a.toLower && a.toLower ≤ '9'))
        || pyIsSpace a.toLower) := by
  have h := toLower_not_ascii_upper a
  have hB : (decide ('A' ≤ a.toLower) && decide (a.toLower ≤ 'Z')) = false := by
    simp only [Bool.and_eq_false_iff, decide_eq_false_iff_not]
    by_cases h1 : 'A' ≤ a.toLower
    · exact Or.inr fun h2 => h ⟨h1, h2⟩
    · exact Or.inl h1
  simp only [keptByRegex, hB, Bool.or_false, Bool.false_or]

theorem clean_text_eq_lower_filter (s : Str) :
    clean_text s = (s.map Char.toLower).filter
      (fun c => (('a' ≤ c && c ≤ 'z') || ('0' ≤ c && c ≤ '9'))
        || pyIsSpace c) := by
  apply List.filter_congr
  intro c hc
  rw [List.mem_map] at hc
  obtain ⟨a, _, rfl⟩ := hc
  exact keptByRegex_toLower a

theorem mem_clean_text (s : Str) (c : Char) (hc : c ∈ clean_text s) :
    (('a' ≤ c ∧ c ≤ 'z') ∨ ('0' ≤ c ∧ c ≤ '9') ∨ pyIsSpace c = true)
      ∧ ¬('A' ≤ c ∧ c ≤ 'Z') := by
  rw [clean_text, List.mem_filter] at hc
  obtain ⟨hmem, hkept⟩ := hc
  rw [List.mem_map] at hmem
  obtain ⟨a, _, rfl⟩ := hmem
  constructor
  · rw [keptByRegex_toLower] at hkept
    simp only [Bool.or_eq_true, Bool.and_eq_true, decide_eq_true_eq] at hkept
    tauto
  · exact toLower_not_ascii_upper a

theorem pad_sequence_length (s : List Str) (m : Nat) :
    (pad_sequence s m).length = m := by
  simp [pad_sequence]
  omega

theorem take_pad (s : List Str) (m : Nat) :
    (pad_sequence s m).take (min s.length m) = s.take m := by
  have h1 : (s.take m).length = min s.length m := by
    simp [List.length_take]
    omega
  rw [pad_sequence, ← h1, List.take_left]

theorem drop_pad (s : List Str) (m : Nat) :
    (pad_sequence s m).drop (min s.length m) =
      List.replicate (m - s.length) PAD := by
  have h1 : (s.take m).length = min s.length m := by
    simp [List.length_take]
    omega
  rw [pad_sequence, ← h1, List.drop_left]

theorem pad_sequence_getD (s : List Str) (m i : Nat) (hi : i < m) :
    (pad_sequence s m).getD i [] =
      if i < s.length ∧ i < m then s.getD i [] else PAD := by
  have hlen : i < (pad_sequence s m).length := by
    rw [pad_sequence_length]; exact hi
  rw [List.getD_eq_getElem _ _ hlen]
  by_cases h : i < s.length
  · rw [if_pos ⟨h, hi⟩]
    have ht : i < (s.take m).length := by
      simp [List.length_take]
      omega
    rw [List.getD_eq_getElem _ _ h]
    simp only [pad_sequence]
    rw [List.getElem_append_left ht]
    simp [List.getElem_take]
  · rw [if_neg (by tauto)]
    have ht : (s.take m).length ≤ i := by
      simp [List.length_take]
      omega
    simp only [pad_sequence]
    rw [List.getElem_append_right ht]
    exact List.getElem_replicate _ _

/-- C1: for every token sequence and every `max_length ≥ 1`,
`pad_sequence` returns a sequence of length exactly `max_length`: its
first `min(len(input), max_length)` elements are the corresponding input
tokens and the remaining elements are all the sentinel `<PAD>`; a
zero-length input yields `max_length` sentinels; an input of length
`≥ max_length` yields its first `max_length` tokens with no sentinel
appended; and both sides of every padded pair have identical length
`max_length`. -/
theorem pad_sequence_correct (sequence : List Str) (max_length : Nat)
    (h : 1 ≤ max_length) :
    (pad_sequence sequence max_length).length = max_length
    ∧ (pad_sequence sequence max_length).take
        (min sequence.length max_length) = sequence.take max_length
    ∧ (pad_sequence sequence max_length).drop
        (min sequence.length max_length)
        = List.replicate (max_length - sequence.length) PAD
    ∧ pad_sequence [] max_length = List.replicate max_length PAD
    ∧ (max_length ≤ sequence.length →
        pad_sequence sequence max_length = sequence.take max_length)
    ∧ ∀ ps : List (Str × Str), ∀ q ∈ padPairs ps max_length,
        q.1.length = max_length ∧ q.2.length = max_length := by
  refine ⟨pad_sequence_length _ _, take_pad _ _, drop_pad _ _, ?_, ?_, ?_⟩
  · simp [pad_sequence]
  · intro hle
    simp [pad_sequence, Nat.sub_eq_zero_of_le hle]
  · intro ps q hq
    rw [padPairs, List.mem_map] at hq
    obtain ⟨p, _, rfl⟩ := hq
    exact ⟨pad_sequence_length _ _, pad_sequence_length _ _⟩

/-- Witness for C1 at the concrete input `[["a"], ["b"]]`, `max_length = 3`,
with the pair-list part instantiated at one pair of texts. -/
theorem pad_sequence_correct_witness :
    (pad_sequence [['a'], ['b']] 3).length = 3
    ∧ pad_sequence [] 3 = List.replicate 3 PAD
    ∧ ((pad_sequence (tokenize ['h', 'i']) 3,
        pad_sequence (tokenize ['y', 'o']) 3).1.length = 3
       ∧ (pad_sequence (tokenize ['h', 'i']) 3,
          pad_sequence (tokenize ['y', 'o']) 3).2.length = 3) :=
  ⟨(pad_sequence_correct [['a'], ['b']] 3 (by decide)).1,
   (pad_sequence_correct [['a'], ['b']] 3 (by decide)).2.2.2.1,
   (pad_sequence_correct [['a'], ['b']] 3 (by decide)).2.2.2.2.2
     [(['h', 'i'], ['y', 'o'])]
     (pad_sequence (tokenize ['h', 'i']) 3,
      pad_sequence (tokenize ['y', 'o']) 3)
     (by decide)⟩

/-- C2: for every Conversation with `n` utterances in stored order, the
pairing loop emits exactly `max(n-1, 0)` pairs, pair `i` being exactly
`(utterance[i].text, utterance[i+1].text)`; no emitted pair links
utterances from two different Conversations, and conversations with
fewer than 2 utterances contribute zero pairs. -/
theorem pair_extractor_correct (c : Conversation)
    (corpus : List Conversation) :
    (convoPairs c.utterances).length = c.utterances.length - 1
    ∧ (∀ i, i + 1 < c.utterances.length →
        (convoPairs c.utterances).getD i ([], []) =
          ((c.utterances.getD i default).text,
           (c.utterances.getD (i + 1) default).text))
    ∧ (c.utterances.length < 2 → convoPairs c.utterances = [])
    ∧ ∀ p ∈ extractPairs corpus, ∃ cv ∈ corpus, ∃ i,
        i + 1 < cv.utterances.length ∧
        p = ((cv.utterances.getD i default).text,
             (cv.utterances.getD (i + 1) default).text) := by
  refine ⟨convoPairs_length _, fun i hi => convoPairs_getD _ i hi, ?_,
    fun p hp => mem_extractPairs corpus p hp⟩
  intro h2
  have hl := convoPairs_length c.utterances
  have h0 : (convoPairs c.utterances).length = 0 := by omega
  exact List.length_eq_zero.mp h0

/-- Witness for C2 at a concrete two-utterance conversation. -/
theorem pair_extractor_correct_witness :
    ((convoPairs (Conversation.mk ['c']
        [⟨['h', 'i'], []⟩, ⟨['y', 'o'], []⟩]).utterances).getD 0 ([], []) =
      (((Conversation.mk ['c']
          [⟨['h', 'i'], []⟩, ⟨['y', 'o'], []⟩]).utterances.getD 0 default).text,
       ((Conversation.mk ['c']
          [⟨['h', 'i'], []⟩, ⟨['y', 'o'], []⟩]).utterances.getD 1 default).text))
    ∧ ∃ cv ∈ [Conversation.mk ['c'] [⟨['h', 'i'], []⟩, ⟨['y', 'o'], []⟩]],
        ∃ i, i + 1 < cv.utterances.length ∧
        ((['h', 'i'], ['y', 'o']) : Str × Str) =
          ((cv.utterances.getD i default).text,
           (cv.utterances.getD (i + 1) default).text) :=
  ⟨(pair_extractor_correct
      (Conversation.mk ['c'] [⟨['h', 'i'], []⟩, ⟨['y', 'o'], []⟩])
      [Conversation.mk ['c'] [⟨['h', 'i'], []⟩, ⟨['y', 'o'], []⟩]]).2.1
      0 (by decide),
   (pair_extractor_correct
      (Conversation.mk ['c'] [⟨['h', 'i'], []⟩, ⟨['y', 'o'], []⟩])
      [Conversation.mk ['c'] [⟨['h', 'i'], []⟩, ⟨['y', 'o'], []⟩]]).2.2.2
      (['h', 'i'], ['y', 'o']) (by decide)⟩

/-- C3: for every input string, `clean_text` is lowercasing followed by
deletion of every character outside `[a-z0-9]` and whitespace, with no
replacement character inserted; hence the output matches
`^[a-z0-9\s]*$` and contains no uppercase letters. -/
theorem clean_text_correct (s : Str) :
    clean_text s = (s.map Char.toLower).filter
      (fun c => (('a' ≤ c && c ≤ 'z') || ('0' ≤ c && c ≤ '9'))
        || pyIsSpace c)
    ∧ ∀ c ∈ clean_text s,
        (('a' ≤ c ∧ c ≤ 'z') ∨ ('0' ≤ c ∧ c ≤ '9') ∨ pyIsSpace c = true)
        ∧ ¬('A' ≤ c ∧ c ≤ 'Z') :=
  ⟨clean_text_eq_lower_filter s, fun c hc => mem_clean_text s c hc⟩

/-- Witness for C3 at the concrete input `"Hi!"`. -/
theorem clean_text_correct_witness :
    (clean_text ['H', 'i', '!'] =
      ((['H', 'i', '!'] : Str).map Char.toLower).filter
        (fun c => (('a' ≤ c && c ≤ 'z') || ('0' ≤ c && c ≤ '9'))
          || pyIsSpace c))
    ∧ ((('a' ≤ 'h' ∧ 'h' ≤ 'z') ∨ ('0' ≤ 'h' ∧ 'h' ≤ '9')
          ∨ pyIsSpace 'h' = true)
        ∧ ¬('A' ≤ 'h' ∧ 'h' ≤ 'Z')) :=
  ⟨(clean_text_correct ['H', 'i', '!']).1,
   (clean_text_correct ['H', 'i', '!']).2 'h' (by decide)⟩

/-- C4: `tokenize` splits on runs of whitespace, discarding the empty
tokens produced by leading, trailing, or repeated whitespace; no token
is the empty string (in particular none of `tokenize(clean_text(s))`),
and the empty input yields an empty token sequence. -/
theorem tokenize_correct (s t : Str) :
    tokenize t = (splitKeepEmpty t).filter (fun x => x ≠ [])
    ∧ (∀ x ∈ tokenize t, x ≠ [])
    ∧ ([] ∉ tokenize (clean_text s))
    ∧ tokenize [] = [] := by
  refine ⟨tokenize_eq_split_filter t, ?_, ?_, by decide⟩
  · intro x hx
    rw [tokenize_eq_split_filter] at hx
    exact of_decide_eq_true (List.mem_filter.mp hx).2
  · intro hx
    rw [tokenize_eq_split_filter] at hx
    have h := (List.mem_filter.mp hx).2
    simp at h

/-- Witness for C4 at the concrete input `" hi"`. -/
theorem tokenize_correct_witness :
    ((['h', 'i'] : Str) ≠ []) ∧ tokenize [] = [] :=
  ⟨(tokenize_correct [] [' ', 'h', 'i']).2.1 ['h', 'i'] (by decide),
   (tokenize_correct [] []).2.2.2⟩

theorem mem_splitKeepEmpty (s : Str) :
    ∀ f ∈ splitKeepEmpty s, ∀ c ∈ f, c ∈ s ∧ pyIsSpace c = false := by
  induction s with
  | nil =>
    intro f hf c hc
    simp [splitKeepEmpty] at hf
    subst hf
    simp at hc
  | cons a rest ih =>
    intro f hf c hc
    simp only [splitKeepEmpty] at hf
    by_cases ha : pyIsSpace a
    · rw [if_pos ha] at hf
      rcases List.mem_cons.mp hf with rfl | hf
      · simp at hc
      · have h := ih f hf c hc
        exact ⟨List.mem_cons_of_mem _ h.1, h.2⟩
    · rw [if_neg ha] at hf
      cases hsp : splitKeepEmpty rest with
      | nil => exact absurd hsp (splitKeepEmpty_ne_nil rest)
      | cons g gs =>
        rw [hsp] at hf
        rcases List.mem_cons.mp hf with rfl | hf
        · rcases List.mem_cons.mp hc with rfl | hc
          · exact ⟨List.mem_cons_self _ _, Bool.eq_false_iff.mpr ha⟩
          · have hg : g ∈ splitKeepEmpty rest := by
              rw [hsp]; exact List.mem_cons_self _ _
            have h := ih g hg c hc
            exact ⟨List.mem_cons_of_mem _ h.1, h.2⟩
        · have hfs : f ∈ splitKeepEmpty rest := by
            rw [hsp]; exact List.mem_cons_of_mem _ hf
          have h := ih f hfs c hc
          exact ⟨List.mem_cons_of_mem _ h.1, h.2⟩

theorem tokens_ne_pad (s : Str) (t : Str)
    (ht : t ∈ tokenize (clean_text s)) : t ≠ PAD := by
  intro hEq
  subst hEq
  rw [tokenize_eq_split_filter] at ht
  have hmem := List.mem_of_mem_filter ht
  have h1 : '<' ∈ PAD := by decide
  have h2 := mem_splitKeepEmpty (clean_text s) PAD hmem '<' h1
  have h3 := mem_clean_text s '<' h2.1
  exact absurd h3 (by decide)

/-- C7: for every input string `s`, no token of
`tokenize(clean_text(s))` equals the sentinel `<PAD>` (the cleaning
regex deletes the angle brackets), so in a padded sequence built from
cleaned text the sentinel occurs exactly at the padding positions
appended by `pad_sequence`. -/
theorem no_pad_alias (s : Str) (m : Nat) :
    (∀ t ∈ tokenize (clean_text s), t ≠ PAD)
    ∧ ∀ i < m, ((pad_sequence (tokenize (clean_text s)) m).getD i [] = PAD
        ↔ (tokenize (clean_text s)).length ≤ i) := by
  refine ⟨fun t ht => tokens_ne_pad s t ht, ?_⟩
  intro i hi
  rw [pad_sequence_getD _ m i hi]
  by_cases h : i < (tokenize (clean_text s)).length
  · rw [if_pos ⟨h, hi⟩]
    constructor
    · intro hPad
      exfalso
      have hm : (tokenize (clean_text s)).getD i [] ∈
          tokenize (clean_text s) := by
        rw [List.getD_eq_getElem _ _ h]
        exact List.getElem_mem _
      exact tokens_ne_pad s _ hm hPad
    · intro hle
      omega
  · rw [if_neg (by tauto)]
    constructor
    · intro _
      omega
    · intro _
      rfl

/-- Witness for C7 at the concrete input `"hi"`, `max_length = 2`. -/
theorem no_pad_alias_witness :
    ((['h', 'i'] : Str) ≠ PAD)
    ∧ ((pad_sequence (tokenize (clean_text ['h', 'i'])) 2).getD 1 [] = PAD
        ↔ (tokenize (clean_text ['h', 'i'])).length ≤ 1) :=
  ⟨(no_pad_alias ['h', 'i'] 2).1 ['h', 'i'] (by decide),
   (no_pad_alias ['h', 'i'] 2).2 1 (by decide)⟩

theorem map_getD_range (l : List (List Str × List Str)) :
    (List.range l.length).map (fun i => l.getD i ([], [])) = l := by
  apply List.ext_getElem
  · simp
  · intro i h1 h2
    simp only [List.getElem_map, List.getElem_range]
    rw [List.getD_eq_getElem _ _ h2]

theorem shuffleBy_perm (perm : List Nat) (l : List (List Str × List Str))
    (hp : perm.Perm (List.range l.length)) :
    (shuffleBy perm l).Perm l := by
  have h1 : (shuffleBy perm l).Perm
      ((List.range l.length).map (fun i => l.getD i ([], []))) :=
    List.Perm.map _ hp
  rwa [map_getD_range] at h1

/-- C5: for a permutation-shuffled split of an `N`-pair list, the train
and validation lists have lengths summing to `N`, their concatenation is
a permutation of the input (the multiset is preserved, no duplication or
loss), and the sizes are `N - ceil(N/5)` and `ceil(N/5)` — a rounding of
`0.8·N` and `0.2·N` that sums to `N`. -/
theorem train_test_split_correct (l : List (List Str × List Str))
    (perm : List Nat) (hp : perm.Perm (List.range l.length)) :
    (train_test_split l perm).1.length + (train_test_split l perm).2.length
        = l.length
    ∧ List.Perm ((train_test_split l perm).1 ++ (train_test_split l perm).2) l
    ∧ (train_test_split l perm).2.length = (l.length + 4) / 5
    ∧ (train_test_split l perm).1.length
        = l.length - (l.length + 4) / 5 := by
  have hs : (shuffleBy perm l).length = l.length := by
    rw [shuffleBy, List.length_map, hp.length_eq, List.length_range]
  have hcut : (l.length + 4) / 5 ≤ l.length := by omega
  have h1 : (train_test_split l perm).1 =
      (shuffleBy perm l).drop ((l.length + 4) / 5) := rfl
  have h2 : (train_test_split l perm).2 =
      (shuffleBy perm l).take ((l.length + 4) / 5) := rfl
  have hperm : List.Perm
      ((train_test_split l perm).1 ++ (train_test_split l perm).2) l := by
    rw [h1, h2]
    have hstep : List.Perm
        ((shuffleBy perm l).drop ((l.length + 4) / 5)
          ++ (shuffleBy perm l).take ((l.length + 4) / 5))
        (shuffleBy perm l) := by
      conv_rhs => rw [← List.take_append_drop ((l.length + 4) / 5)
        (shuffleBy perm l)]
      exact List.perm_append_comm
    exact hstep.trans (shuffleBy_perm perm l hp)
  refine ⟨?_, hperm, ?_, ?_⟩
  · rw [h1, h2, List.length_drop, List.length_take, hs]
    omega
  · rw [h2, List.length_take, hs]
    omega
  · rw [h1, List.length_drop, hs]

/-- Witness for C5 at a concrete 3-pair list and permutation `[2, 0, 1]`. -/
theorem train_test_split_correct_witness :
    ((train_test_split [(([['a']], [['b']]) : List Str × List Str),
        ([['c']], [['d']]), ([['e']], [['f']])] [2, 0, 1]).1.length
      + (train_test_split [(([['a']], [['b']]) : List Str × List Str),
        ([['c']], [['d']]), ([['e']], [['f']])] [2, 0, 1]).2.length = 3)
    ∧ List.Perm
        ((train_test_split [(([['a']], [['b']]) : List Str × List Str),
          ([['c']], [['d']]), ([['e']], [['f']])] [2, 0, 1]).1
         ++ (train_test_split [(([['a']], [['b']]) : List Str × List Str),
          ([['c']], [['d']]), ([['e']], [['f']])] [2, 0, 1]).2)
        [(([['a']], [['b']]) : List Str × List Str),
          ([['c']], [['d']]), ([['e']], [['f']])]
    ∧ (train_test_split [(([['a']], [['b']]) : List Str × List Str),
        ([['c']], [['d']]), ([['e']], [['f']])] [2, 0, 1]).2.length = 1
    ∧ (train_test_split [(([['a']], [['b']]) : List Str × List Str),
        ([['c']], [['d']]), ([['e']], [['f']])] [2, 0, 1]).1.length = 2 :=
  train_test_split_correct
    [(([['a']], [['b']]) : List Str × List Str),
      ([['c']], [['d']]), ([['e']], [['f']])]
    [2, 0, 1] (by decide)

theorem decodeStrList_encode (xs : List Str) :
    decodeStrList (xs.map Json.str) = some xs := by
  induction xs with
  | nil => rfl
  | cons x xs ih => simp [decodeStrList, decodeStr, ih]

theorem decodePair_encode (p : List Str × List Str) :
    decodePair (Json.arr [Json.arr (p.1.map Json.str),
      Json.arr (p.2.map Json.str)]) = some p := by
  simp [decodePair, decodeSeq, decodeStrList_encode]

theorem decodePairList_encode (ps : List (List Str × List Str)) :
    decodePairList (ps.map (fun p => Json.arr [Json.arr (p.1.map Json.str),
      Json.arr (p.2.map Json.str)])) = some ps := by
  induction ps with
  | nil => rfl
  | cons p ps ih => simp [decodePairList, decodePair_encode, ih]

theorem deserialize_serialize (ps : List (List Str × List Str)) :
    deserialize (serialize ps) = some ps := by
  simp [serialize, deserialize, decodePairList_encode]

/-- C6: deserializing the Serializer's JSON output reproduces the exact
list of (sequence, sequence) pairs with identical token strings and
ordering: `deserialize (serialize pairs) = some pairs`. -/
theorem serializer_roundtrip (pairs : List (List Str × List Str)) :
    deserialize (serialize pairs) = some pairs :=
  deserialize_serialize pairs

theorem convoPairsTokens_map (us : List Utterance) :
    convoPairsTokens (us.map tokenizeUtt) =
      (convoPairs (us.map tokenizeUtt)).map
        (fun p => (tokenize p.1, tokenize p.2)) := by
  rw [convoPairsTokens, convoPairs, List.map_map]
  apply List.map_congr_left
  intro i hi
  rw [List.mem_range, List.length_map] at hi
  have h1 : i < (us.map tokenizeUtt).length := by
    rw [List.length_map]; omega
  have h2 : i + 1 < (us.map tokenizeUtt).length := by
    rw [List.length_map]; omega
  simp only [Function.comp]
  rw [List.getD_eq_getElem _ _ h1, List.getD_eq_getElem _ _ h2]
  simp [tokenizeUtt, List.getElem_map]

theorem extractPairsTokens_eq (corpus : List Conversation) :
    extractPairsTokens (tokenizeCorpus corpus) =
      (extractPairs (tokenizeCorpus corpus)).map
        (fun p => (tokenize p.1, tokenize p.2)) := by
  rw [extractPairsTokens, extractPairs, tokenizeCorpus, List.map_flatMap,
    List.flatMap_map, List.flatMap_map]
  congr 1
  funext c
  show convoPairsTokens (c.utterances.map tokenizeUtt) =
    (convoPairs (c.utterances.map tokenizeUtt)).map
      (fun p => (tokenize p.1, tokenize p.2))
  exact convoPairsTokens_map c.utterances

/-- C9: the tokens assigned to each utterance by the tokenization stage
equal the tokens freshly re-computed from its (unchanged) text at
padding time, so the pipeline variant that reuses the cached tokens
produces exactly the same padded pair list as the reference's
re-tokenizing variant. -/
theorem retokenize_equiv (corpus : List Conversation) (m : Nat) :
    (∀ cv ∈ tokenizeCorpus (cleanCorpus corpus), ∀ u ∈ cv.utterances,
        u.tokens = tokenize u.text)
    ∧ preprocess corpus m = preprocessCached corpus m := by
  constructor
  · intro cv hcv u hu
    rw [tokenizeCorpus, List.mem_map] at hcv
    obtain ⟨c0, _, rfl⟩ := hcv
    simp only [tokenizeConvo, List.mem_map] at hu
    obtain ⟨u0, _, rfl⟩ := hu
    rfl
  · rw [preprocess, preprocessCached, extractPairsTokens_eq, List.map_map,
      padPairs]
    rfl

/-- Witness for C9 at a concrete one-conversation corpus. -/
theorem retokenize_equiv_witness :
    ((tokenizeUtt (cleanUtt ⟨['H', 'i'], []⟩)).tokens =
      tokenize (tokenizeUtt (cleanUtt ⟨['H', 'i'], []⟩)).text)
    ∧ preprocess [Conversation.mk ['c']
        [⟨['H', 'i'], []⟩, ⟨['y', 'o'], []⟩]] 3 =
      preprocessCached [Conversation.mk ['c']
        [⟨['H', 'i'], []⟩, ⟨['y', 'o'], []⟩]] 3 :=
  ⟨(retokenize_equiv [Conversation.mk ['c'] [⟨['H', 'i'], []⟩]] 3).1
      (tokenizeConvo (cleanConvo (Conversation.mk ['c'] [⟨['H', 'i'], []⟩])))
      (by decide)
      (tokenizeUtt (cleanUtt ⟨['H', 'i'], []⟩)) (by decide),
   (retokenize_equiv [Conversation.mk ['c']
      [⟨['H', 'i'], []⟩, ⟨['y', 'o'], []⟩]] 3).2⟩

/-- C8 (the code at the failing input): on a missing (None) utterance
text the notebook performs no validation — the call into `clean_text`
raises `AttributeError` at `text.lower()`, an unhandled crash from
inside the cleaning step rather than a clear invalid-input condition. -/
theorem clean_text_none_crashes :
    clean_text_py PyTextValue.none = Except.error PyError.attributeError
    ∧ PyError.attributeError ≠ PyError.invalidInput :=
  ⟨rfl, by decide⟩

/-- C10 (the code at the failing point): the frozen Save Preprocessed
Data cell is a SyntaxError — the stray `]` makes Python reject the cell
before it runs — so it writes nothing at all, and in particular not the
full padded pair list the claim describes.  The intended write (the cell
with the stray bracket removed, matching its stored success output) does
dump the full padded pair list: its contents are independent of the
split permutation, the split halves are never persisted, and reading the
document back reproduces the padded pairs exactly. -/
theorem save_cell_syntax_error (corpus : List Conversation) (m : Nat)
    (perm perm2 : List Nat) :
    saveCellFrozen corpus m perm = SaveResult.syntaxError
    ∧ saveCellFrozen corpus m perm
        ≠ SaveResult.written (serialize (preprocess corpus m))
    ∧ saveCellIntended corpus m perm
        = SaveResult.written (serialize (preprocess corpus m))
    ∧ saveCellIntended corpus m perm = saveCellIntended corpus m perm2
    ∧ deserialize (serialize (preprocess corpus m))
        = some (preprocess corpus m) :=
  ⟨rfl, fun h => SaveResult.noConfusion h, rfl, rfl,
   deserialize_serialize (preprocess corpus m)⟩
